import Mathlib

/-!
Verification of the recursive shell-script expansion engine of shld.py.

The embedding models the engine line by line from the source:

* the directive and inclusion patterns SHLDIGNORE_COMMENT_PATTERN and
  SOURCE_CMD_PATTERN (anchored regex matching over Python whitespace);
* shlex.split in POSIX mode with whitespace splitting, used to pull the
  target path out of an inclusion line;
* os.path.dirname, path resolution of relative paths against the current
  working directory, and the conditional pushd/popd discipline around each
  processed file;
* the interpreter-line validator run only at recursion depth 0;
* process_file itself, as a fueled recursive function over a finite map
  from absolute paths to file contents (a file is its list of lines, each
  line carrying its trailing newline, as returned by readline).

Fatal exits (exit codes 1, 2, 3) and uncaught Python exceptions
(AttributeError on an interpreter line without a token, IndexError when an
inclusion line has no argument, ValueError from shlex on an unclosed
quote) are modelled as distinct error outcomes carrying the output that
was written to the output stream before the failure.
-/

/-- Python regex whitespace class (ASCII part), used by the patterns of
shld.py: blank, tab, newline, carriage return, vertical tab, form feed. -/
def isPySpace (c : Char) : Bool :=
  c == ' ' || c == '\t' || c == '\n' || c == '\r' || c == '\x0b' || c == '\x0c'

/-- Matching of SHLDIGNORE_COMMENT_PATTERN, the anchored case-insensitive
regex for optional leading whitespace followed by the marker #shldignore. -/
def shldignoreMatches (line : String) : Bool :=
  "#shldignore".toList.isPrefixOf ((line.toList.dropWhile isPySpace).map Char.toLower)

/-- Head shape required by SOURCE_CMD_PATTERN once leading whitespace is
dropped: the keyword (the word source, or a single dot) followed by at
least one whitespace character.  The trailing part of the regex matches
zero or more literal dots and so imposes no further constraint. -/
def srcHead : List Char → Bool
  | 's' :: 'o' :: 'u' :: 'r' :: 'c' :: 'e' :: c :: _ => isPySpace c
  | '.' :: c :: _ => isPySpace c
  | _ => false

/-- Matching of SOURCE_CMD_PATTERN, the anchored regex classifying a line
as an inclusion statement. -/
def sourceCmdMatches (line : String) : Bool :=
  srcHead (line.toList.dropWhile isPySpace)

/-- Lexer state of the shlex model: outside quotes, inside single quotes,
inside double quotes, or just after an escape character (outside or inside
double quotes). -/
inductive LexMode where
  | normal
  | single
  | double
  | escN
  | escD
deriving DecidableEq

/-- Model of the state machine of Python shlex in POSIX mode with
whitespace splitting.  Arguments: remaining characters, lexer state,
reversed characters of the token being built, whether a token has been
started, tokens already produced (in order).  Returns none when the input
ends inside a quote or escape, where shlex raises ValueError. -/
def shlexGo : List Char → LexMode → List Char → Bool → List String → Option (List String)
  | [], .normal, acc, started, toks =>
      some (if started then toks ++ [String.mk acc.reverse] else toks)
  | [], _, _, _, _ => none
  | c :: cs, .normal, acc, started, toks =>
      if isPySpace c then
        if started then shlexGo cs .normal [] false (toks ++ [String.mk acc.reverse])
        else shlexGo cs .normal acc false toks
      else if c = '\'' then shlexGo cs .single acc true toks
      else if c = '"' then shlexGo cs .double acc true toks
      else if c = '\\' then shlexGo cs .escN acc true toks
      else shlexGo cs .normal (c :: acc) true toks
  | c :: cs, .single, acc, started, toks =>
      if c = '\'' then shlexGo cs .normal acc started toks
      else shlexGo cs .single (c :: acc) started toks
  | c :: cs, .double, acc, started, toks =>
      if c = '"' then shlexGo cs .normal acc started toks
      else if c = '\\' then shlexGo cs .escD acc started toks
      else shlexGo cs .double (c :: acc) started toks
  | c :: cs, .escN, acc, started, toks =>
      shlexGo cs .normal (c :: acc) started toks
  | c :: cs, .escD, acc, started, toks =>
      if c = '"' ∨ c = '\\' then shlexGo cs .double (c :: acc) started toks
      else shlexGo cs .double (c :: '\\' :: acc) started toks

/-- Model of shlex.split(line): shell-word splitting of one line. -/
def shlexSplit (s : String) : Option (List String) :=
  shlexGo s.toList .normal [] false []

/-- Second element of a token list, as selected by the subscript [1] in
shlex.split(line)[1]; none models the IndexError raised when the list has
fewer than two elements. -/
def secondToken : List String → Option String
  | _ :: t :: _ => some t
  | _ => none

/-- Whether a path is absolute (begins with a path separator). -/
def isAbsolute (p : String) : Bool :=
  match p.toList with
  | '/' :: _ => true
  | _ => false

/-- Resolution of a path against a current working directory: an absolute
path stands alone, a relative path is interpreted under the directory.
This is how the operating system resolves the paths that shld.py hands to
open and chdir. -/
def resolvePath (cwd p : String) : String :=
  if isAbsolute p then p else cwd ++ "/" ++ p

/-- Model of os.path.dirname for POSIX paths: everything up to the last
path separator, with trailing separators stripped unless the result
consists of separators only; the empty string when there is no
separator. -/
def pyDirname (p : String) : String :=
  let rev := p.toList.reverse
  let headRev := rev.dropWhile (fun c => !(c == '/'))
  if headRev.isEmpty then ""
  else if headRev.all (fun c => c == '/') then String.mk headRev.reverse
  else String.mk ((headRev.dropWhile (fun c => c == '/')).reverse)

/-- Interpreter-name extraction of process_file at depth 0: the regex
search for a final run of characters that are neither path separators nor
whitespace, followed only by trailing whitespace.  Equivalently: strip
trailing whitespace, then take the longest suffix free of separators and
whitespace; none when that suffix is empty, where match.group(1) raises
AttributeError on the failed search. -/
def extractShell (line : String) : Option String :=
  let tok := (line.toList.reverse.dropWhile isPySpace).takeWhile
    (fun c => !(c == '/' || isPySpace c))
  if tok.isEmpty then none else some (String.mk tok.reverse)

/-- The allow-list SUPPORTED_SHELLS of shld.py. -/
def SUPPORTED_SHELLS : List String := ["sh", "bash", "dash", "ksh"]

/-- A file system: a finite association of absolute path strings with file
contents, a file being its list of lines as produced by readline (each
line keeps its trailing newline; the final line may lack one). -/
abbrev FS := List (String × List String)

/-- Reading a file: the content associated with the first matching path,
none when the path is absent (the IOError branch of process_file). -/
def fsRead : FS → String → Option (List String)
  | [], _ => none
  | (q, c) :: rest, p => if q = p then some c else fsRead rest p

/-- Failure outcomes of process_file.  The first three carry the
documented exit codes 1, 2 and 3; the remaining ones model uncaught
Python exceptions and fuel exhaustion of the model. -/
inductive PErr where
  | openFailed (path : String)
  | unsupportedShell (shell : String)
  | improperShldignore (file : String) (lineNumber : Nat)
  | attrErrNoShellToken (line : String)
  | indexErrNoSourceArg (file : String) (line : String)
  | valueErrShlex (file : String) (line : String)
  | outOfFuel
deriving DecidableEq

/-- The exit code a failure outcome maps to: the documented codes 1, 2, 3
for the three fatal exits of process_file; none for an uncaught exception
(the process dies without reaching any documented exit condition) and for
fuel exhaustion. -/
def exitCodeOf : PErr → Option Nat
  | .openFailed _ => some 1
  | .unsupportedShell _ => some 2
  | .improperShldignore _ _ => some 3
  | _ => none

/-- Result of one process_file invocation: on success, the lines it wrote
to the output stream in order, and the working directory of the process
when it returned; on failure, the failure and the lines written before
it. -/
inductive PResult where
  | ok (out : List String) (cwd : String)
  | err (e : PErr) (out : List String)
deriving DecidableEq

/-- Prefixing lines onto the output stream of a result, used to place the
writes of a caller before the writes of what it invoked. -/
def prependOut (pre : List String) : PResult → PResult
  | .ok out cwd => .ok (pre ++ out) cwd
  | .err e out => .err e (pre ++ out)

/-- The popd of process_file: when a directory switch happened (the
dirname is nonempty) and the saved directory string is truthy (nonempty),
the working directory is restored to the saved one; otherwise it stays as
the scan left it. -/
def restoreCwd (d savedCwd : String) : PResult → PResult
  | .ok out endCwd =>
      .ok out (if d = "" then endCwd else if savedCwd = "" then endCwd else savedCwd)
  | .err e out => .err e out

/-- The scanning loop of process_file over the lines of one file.
Arguments: the recursive processing of a nested file (target path and
current working directory to result), remaining lines, the name the file
was opened under (for error reports), current working directory, current
line counter.  Mirrors the while loop of process_file: a line matching
the ignore pattern must be followed by an inclusion line which is then
written unexpanded (a missing or non-matching follower is the fatal
improper-use exit, reporting the counter value at the directive); an
inclusion line is expanded by recursing into its target; every other line
is written unchanged. -/
def linesGo (recur : String → String → PResult) :
    List String → String → String → Nat → PResult
  | [], _, cwd, _ => .ok [] cwd
  | line :: rest, fname, cwd, ln =>
    if shldignoreMatches line then
      match rest with
      | [] => .err (.improperShldignore fname ln) []
      | nxt :: rest2 =>
        if sourceCmdMatches nxt then
          prependOut [nxt] (linesGo recur rest2 fname cwd (ln + 2))
        else .err (.improperShldignore fname ln) []
    else if sourceCmdMatches line then
      match shlexSplit line with
      | none => .err (.valueErrShlex fname line) []
      | some toks =>
        match secondToken toks with
        | none => .err (.indexErrNoSourceArg fname line) []
        | some target =>
          match recur target cwd with
          | .ok a cwd2 => prependOut a (linesGo recur rest fname cwd2 (ln + 1))
          | .err e out => .err e out
    else prependOut [line] (linesGo recur rest fname cwd (ln + 1))

/-- The engine process_file of shld.py over the file system model.
Fueled on the depth of nested file openings (the source recursion is
unbounded; every theorem either supplies enough fuel or assumes a
successful run).  At depth 0 the first line is validated against
SUPPORTED_SHELLS and echoed; then the directory of the opened file, when
nonempty, becomes the working directory for the scan of its lines and the
prior directory is restored afterwards exactly when the saved directory
string is truthy, as in the conditional pushd/popd of the source. -/
def processFile (fs : FS) : Nat → String → String → Nat → PResult
  | 0, _, _, _ => .err .outOfFuel []
  | fuel + 1, inputFilename, cwd, depth =>
    match fsRead fs (resolvePath cwd inputFilename) with
    | none => .err (.openFailed inputFilename) []
    | some lines =>
      let d := pyDirname inputFilename
      let innerCwd := if d = "" then cwd else resolvePath cwd d
      let recur := fun t c => processFile fs fuel t c (depth + 1)
      if depth = 0 then
        match extractShell (lines.headD "") with
        | none => .err (.attrErrNoShellToken (lines.headD "")) []
        | some shell =>
          if shell ∈ SUPPORTED_SHELLS then
            prependOut [lines.headD ""]
              (restoreCwd d cwd (linesGo recur lines.tail inputFilename innerCwd 1))
          else .err (.unsupportedShell shell) []
      else restoreCwd d cwd (linesGo recur lines inputFilename innerCwd 0)

/-- Modelled from the spec, for the refinement claim on depth-first
expansion: the text obtained by manually pasting, depth-first and left to
right, the fully expanded content of the target of every inclusion line
in place of that line, all other lines copied verbatim.  Returns none
when the pasting is undefined: a file fails to open, an ignore directive
occurs in the tree, an inclusion line has no target, or the nesting
exceeds the fuel. -/
def expandGo (recur : String → String → Option (List String)) :
    List String → String → Option (List String)
  | [], _ => some []
  | line :: rest, cwd =>
    if shldignoreMatches line then none
    else if sourceCmdMatches line then
      match shlexSplit line with
      | none => none
      | some toks =>
        match secondToken toks with
        | none => none
        | some target =>
          match recur target cwd, expandGo recur rest cwd with
          | some a, some b => some (a ++ b)
          | _, _ => none
    else (expandGo recur rest cwd).map (fun b => line :: b)

/-- Modelled from the spec: full manual expansion of one included file,
located and entered exactly as the engine locates and enters it, but as a
pure depth-first paste with no working-directory mutation and no output
stream. -/
def specExpandFile (fs : FS) : Nat → String → String → Option (List String)
  | 0, _, _ => none
  | fuel + 1, path, cwd =>
    match fsRead fs (resolvePath cwd path) with
    | none => none
    | some lines =>
      let d := pyDirname path
      expandGo (specExpandFile fs fuel) lines (if d = "" then cwd else resolvePath cwd d)

/-- Modelled from the spec, for comparison with the code classifier in
claim C6: a line is an inclusion statement when, after optional leading
whitespace, it begins with the keyword source or the keyword dot,
followed by required whitespace and then at least one non-whitespace
character naming a file. -/
def claimedInclusion (line : String) : Bool :=
  let check : List Char → Bool := fun after =>
    (match after with
     | c :: _ => isPySpace c
     | [] => false) && !(after.dropWhile isPySpace).isEmpty
  let r := line.toList.dropWhile isPySpace
  if "source".toList.isPrefixOf r then check (r.drop 6)
  else
    match r with
    | '.' :: after => check after
    | _ => false

/-- The amended classification of claim C6, stated as a decomposition:
after optional leading whitespace the line carries the keyword source or
the keyword dot followed by at least one whitespace character, with no
requirement that anything follow that whitespace. -/
def amendedInclusion (line : String) : Prop :=
  ∃ w u rest : List Char,
    (line.toList = w ++ "source".toList ++ u ++ rest ∨
     line.toList = w ++ '.' :: (u ++ rest)) ∧
    (∀ c ∈ w, isPySpace c = true) ∧ u ≠ [] ∧ (∀ c ∈ u, isPySpace c = true)

/-- Fixture: a script including one library, as in the first concrete
scenario of the spec. -/
def fsPaste : FS :=
  [("/a/top.sh", ["#!/bin/bash\n", "echo a\n", ". lib.sh\n", "echo b\n"]),
   ("/a/lib.sh", ["echo c\n"])]

/-- Fixture: an ignore directive immediately followed by an inclusion
line whose target is deliberately absent from the file system. -/
def fsIgnore : FS :=
  [("/s.sh", ["#!/bin/bash\n", "#shldignore\n", ". lib.sh\n"])]

/-- Fixture: an ignore directive followed by a line that is not an
inclusion statement; the directive sits on physical line 2 of the
script. -/
def fsMisuse : FS :=
  [("/s.sh", ["#!/bin/sh\n", "#shldignore\n", "echo x\n"])]

/-- Fixture: a script whose declared interpreter is not in the
allow-list. -/
def fsZsh : FS := [("/z.sh", ["#!/bin/zsh\n"])]

/-- Fixture: a script with no inclusion statement and no directive. -/
def fsSimple : FS := [("/simple.sh", ["#!/bin/sh\n", "echo hi\n"])]

/-- Fixture: an inclusion line whose keyword is followed by whitespace
only, so shlex splitting yields a single token. -/
def fsNoArg : FS := [("/t.sh", ["#!/bin/sh\n", "source \n"])]

/-- Fixture: a script whose first line is whitespace only, so the
interpreter regex finds no token. -/
def fsBlank : FS := [("/w.sh", [" \n", "echo\n"])]

/-- Fixture: a two-level nested inclusion with relative paths, shaped
like the relpath-and-recursion test of the repository. -/
def fsNested : FS :=
  [("/T/r/top.sh", ["#!/bin/bash\n", "echo t\n", ". d1/i1.sh\n"]),
   ("/T/r/d1/i1.sh", ["echo i1\n", ". d2/i2.sh\n"]),
   ("/T/r/d1/d2/i2.sh", ["echo i2\n"])]

/-- Fixture: a file in directory /d whose only line includes a relative
target, with the target file present under /d; a decoy file of the same
relative name placed under the top directory checks that resolution does
not consult the directory of the invoking process. -/
def fsRel : FS :=
  [("/d/a.sh", [". b.sh\n"]),
   ("/d/b.sh", ["echo real\n"]),
   ("/r/b.sh", ["echo decoy\n"])]

/-! Helper lemmas. -/

theorem prependOut_nil (r : PResult) : prependOut [] r = r := by
  cases r <;> simp [prependOut]

theorem prependOut_prependOut (a b : List String) (r : PResult) :
    prependOut a (prependOut b r) = prependOut (a ++ b) r := by
  cases r <;> simp [prependOut]

theorem mem_takeWhile_p {p : Char → Bool} :
    ∀ {l : List Char} {c : Char}, c ∈ l.takeWhile p → p c = true := by
  intro l
  induction l with
  | nil => intro c h; simp [List.takeWhile] at h
  | cons a as ih =>
    intro c h
    rw [List.takeWhile_cons] at h
    by_cases hp : p a = true
    · rw [if_pos hp] at h
      rcases List.mem_cons.mp h with h1 | h2
      · exact h1 ▸ hp
      · exact ih h2
    · rw [if_neg hp] at h
      simp at h

theorem dropWhile_append_all {p : Char → Bool} :
    ∀ {w l : List Char}, (∀ c ∈ w, p c = true) →
      (w ++ l).dropWhile p = l.dropWhile p := by
  intro w
  induction w with
  | nil => intro l _; rfl
  | cons a as ih =>
    intro l hall
    have ha : p a = true := hall a (by simp)
    rw [List.cons_append, List.dropWhile_cons, if_pos ha]
    exact ih (fun c hc => hall c (by simp [hc]))

theorem dropWhile_head_neg {p : Char → Bool} {x : Char} (l : List Char)
    (hx : p x = false) : (x :: l).dropWhile p = x :: l := by
  rw [List.dropWhile_cons, if_neg (by simp [hx])]

theorem takeWhile_append_stop {p : Char → Bool} {x : Char} :
    ∀ {a : List Char} (b : List Char), (∀ c ∈ a, p c = true) → p x = false →
      (a ++ x :: b).takeWhile p = a := by
  intro a
  induction a with
  | nil =>
    intro b _ hx
    rw [List.nil_append, List.takeWhile_cons, if_neg (by simp [hx])]
  | cons a0 as ih =>
    intro b hall hx
    have ha : p a0 = true := hall a0 (by simp)
    rw [List.cons_append, List.takeWhile_cons, if_pos ha,
      ih b (fun c hc => hall c (by simp [hc])) hx]

theorem resolvePath_ne_empty (cwd p : String) : resolvePath cwd p ≠ "" := by
  unfold resolvePath
  split
  · rename_i habs
    intro h
    rw [h] at habs
    exact absurd habs (by decide)
  · intro h
    have hlen := congrArg String.length h
    rw [String.length_append, String.length_append] at hlen
    have h1 : ("/" : String).length = 1 := rfl
    have h0 : ("" : String).length = 0 := rfl
    rw [h1, h0] at hlen
    omega

theorem innerCwd_ne_empty (cwd d : String) (h : cwd ≠ "") :
    (if d = "" then cwd else resolvePath cwd d) ≠ "" := by
  split
  · exact h
  · exact resolvePath_ne_empty cwd d

theorem src_not_ignore (line : String) (h : sourceCmdMatches line = true) :
    shldignoreMatches line = false := by
  unfold sourceCmdMatches at h
  unfold shldignoreMatches
  have hpre : "#shldignore".toList = '#' :: "shldignore".toList := rfl
  rcases hr : line.toList.dropWhile isPySpace with _ | ⟨c, cs⟩
  · rw [hr] at h
    exact absurd h (by simp [srcHead])
  · rw [hr] at h
    have hc : c = 's' ∨ c = '.' := by
      by_contra hcon
      push_neg at hcon
      unfold srcHead at h
      revert h
      split
      · rename_i heq
        intro _
        exact hcon.1 (by injection heq)
      · rename_i heq
        intro _
        exact hcon.2 (by injection heq)
      · intro h
        exact absurd h (by simp)
    rw [List.map_cons, hpre]
    rcases hc with hc | hc <;>
      · subst hc
        simp [List.isPrefixOf]

theorem linesGo_nil (recur : String → String → PResult) (fname cwd : String) (ln : Nat) :
    linesGo recur [] fname cwd ln = .ok [] cwd := rfl

theorem linesGo_ord_step (recur : String → String → PResult)
    (line : String) (rest : List String) (fname cwd : String) (ln : Nat)
    (h1 : shldignoreMatches line = false) (h2 : sourceCmdMatches line = false) :
    linesGo recur (line :: rest) fname cwd ln
      = prependOut [line] (linesGo recur rest fname cwd (ln + 1)) := by
  rw [linesGo.eq_def]
  simp [h1, h2]

theorem linesGo_ord_append (recur : String → String → PResult) :
    ∀ (pre ls : List String) (fname cwd : String) (ln : Nat),
      (∀ l ∈ pre, shldignoreMatches l = false ∧ sourceCmdMatches l = false) →
      linesGo recur (pre ++ ls) fname cwd ln
        = prependOut pre (linesGo recur ls fname cwd (ln + pre.length)) := by
  intro pre
  induction pre with
  | nil =>
    intro ls fname cwd ln _
    rw [List.nil_append, prependOut_nil, List.length_nil, Nat.add_zero]
  | cons a as ih =>
    intro ls fname cwd ln hall
    have h1 := (hall a (by simp)).1
    have h2 := (hall a (by simp)).2
    rw [List.cons_append, linesGo_ord_step recur a (as ++ ls) fname cwd ln h1 h2,
      ih ls fname cwd (ln + 1) (fun l hl => hall l (by simp [hl])),
      prependOut_prependOut]
    have hlen : ln + 1 + as.length = ln + (a :: as).length := by
      rw [List.length_cons]
      omega
    rw [hlen]
    rfl

theorem linesGo_all_ord (recur : String → String → PResult)
    (ls : List String) (fname cwd : String) (ln : Nat)
    (hall : ∀ l ∈ ls, shldignoreMatches l = false ∧ sourceCmdMatches l = false) :
    linesGo recur ls fname cwd ln = .ok ls cwd := by
  have h := linesGo_ord_append recur ls [] fname cwd ln hall
  rw [List.append_nil] at h
  rw [h, linesGo_nil]
  simp [prependOut]

theorem linesGo_ignore_step (recur : String → String → PResult)
    (dline nxt : String) (rest2 : List String) (fname cwd : String) (ln : Nat)
    (h1 : shldignoreMatches dline = true) (h2 : sourceCmdMatches nxt = true) :
    linesGo recur (dline :: nxt :: rest2) fname cwd ln
      = prependOut [nxt] (linesGo recur rest2 fname cwd (ln + 2)) := by
  rw [linesGo.eq_def]
  simp [h1, h2]

theorem linesGo_ignore_bad (recur : String → String → PResult)
    (dline bad : String) (rest2 : List String) (fname cwd : String) (ln : Nat)
    (h1 : shldignoreMatches dline = true) (h2 : sourceCmdMatches bad = false) :
    linesGo recur (dline :: bad :: rest2) fname cwd ln
      = .err (.improperShldignore fname ln) [] := by
  rw [linesGo.eq_def]
  simp [h1, h2]

theorem linesGo_src_step (recur : String → String → PResult)
    (line : String) (rest : List String) (fname cwd : String) (ln : Nat)
    (toks : List String) (target : String)
    (h1 : sourceCmdMatches line = true)
    (htoks : shlexSplit line = some toks) (htgt : secondToken toks = some target) :
    linesGo recur (line :: rest) fname cwd ln
      = (match recur target cwd with
         | .ok a cwd2 => prependOut a (linesGo recur rest fname cwd2 (ln + 1))
         | .err e out => .err e out) := by
  rw [linesGo.eq_def]
  simp [src_not_ignore line h1, h1, htoks, htgt]

theorem expandGo_nil (recur : String → String → Option (List String)) (cwd : String) :
    expandGo recur [] cwd = some [] := rfl

theorem expandGo_cons_ord (recur : String → String → Option (List String))
    (line : String) (rest : List String) (cwd : String)
    (h1 : shldignoreMatches line = false) (h2 : sourceCmdMatches line = false) :
    expandGo recur (line :: rest) cwd
      = (expandGo recur rest cwd).map (fun b => line :: b) := by
  rw [expandGo.eq_def]
  simp [h1, h2]

theorem expandGo_cons_ign (recur : String → String → Option (List String))
    (line : String) (rest : List String) (cwd : String)
    (h1 : shldignoreMatches line = true) :
    expandGo recur (line :: rest) cwd = none := by
  rw [expandGo.eq_def]
  simp [h1]

theorem expandGo_cons_src (recur : String → String → Option (List String))
    (line : String) (rest : List String) (cwd : String)
    (toks : List String) (target : String)
    (h2 : sourceCmdMatches line = true)
    (htoks : shlexSplit line = some toks) (htgt : secondToken toks = some target) :
    expandGo recur (line :: rest) cwd
      = (match recur target cwd, expandGo recur rest cwd with
         | some a, some b => some (a ++ b)
         | _, _ => none) := by
  rw [expandGo.eq_def]
  simp [src_not_ignore line h2, h2, htoks, htgt]

theorem processFile_succ (fs : FS) (fuel : Nat) (inputFilename cwd : String) (depth : Nat) :
    processFile fs (fuel + 1) inputFilename cwd depth =
      match fsRead fs (resolvePath cwd inputFilename) with
      | none => .err (.openFailed inputFilename) []
      | some lines =>
        if depth = 0 then
          match extractShell (lines.headD "") with
          | none => .err (.attrErrNoShellToken (lines.headD "")) []
          | some shell =>
            if shell ∈ SUPPORTED_SHELLS then
              prependOut [lines.headD ""]
                (restoreCwd (pyDirname inputFilename) cwd
                  (linesGo (fun t c => processFile fs fuel t c (depth + 1)) lines.tail
                    inputFilename
                    (if pyDirname inputFilename = "" then cwd
                     else resolvePath cwd (pyDirname inputFilename)) 1))
            else .err (.unsupportedShell shell) []
        else
          restoreCwd (pyDirname inputFilename) cwd
            (linesGo (fun t c => processFile fs fuel t c (depth + 1)) lines inputFilename
              (if pyDirname inputFilename = "" then cwd
               else resolvePath cwd (pyDirname inputFilename)) 0) := rfl

theorem specExpandFile_succ (fs : FS) (fuel : Nat) (path cwd : String) :
    specExpandFile fs (fuel + 1) path cwd =
      match fsRead fs (resolvePath cwd path) with
      | none => none
      | some lines =>
        expandGo (specExpandFile fs fuel) lines
          (if pyDirname path = "" then cwd else resolvePath cwd (pyDirname path)) := rfl

theorem expandGo_linesGo (fs : FS) (fuel : Nat)
    (hrec : ∀ (t c : String) (out : List String) (depth : Nat), c ≠ "" →
        specExpandFile fs fuel t c = some out →
        processFile fs fuel t c (depth + 1) = .ok out c) :
    ∀ (lines : List String) (fname c : String) (ln depth : Nat) (out : List String),
      c ≠ "" → expandGo (specExpandFile fs fuel) lines c = some out →
      linesGo (fun t c2 => processFile fs fuel t c2 (depth + 1)) lines fname c ln
        = .ok out c := by
  intro lines
  induction lines with
  | nil =>
    intro fname c ln depth out hc hx
    rw [expandGo_nil] at hx
    injection hx with hx
    rw [linesGo_nil, ← hx]
  | cons line rest ih =>
    intro fname c ln depth out hc hx
    cases hig : shldignoreMatches line with
    | true =>
      rw [expandGo_cons_ign _ _ _ _ hig] at hx
      exact absurd hx (by simp)
    | false =>
      cases hsrc : sourceCmdMatches line with
      | false =>
        rw [expandGo_cons_ord _ _ _ _ hig hsrc] at hx
        rcases hb : expandGo (specExpandFile fs fuel) rest c with _ | b
        · rw [hb] at hx
          exact absurd hx (by simp)
        · rw [hb] at hx
          have hx2 : line :: b = out := by simpa using hx
          rw [linesGo_ord_step _ _ _ _ _ _ hig hsrc,
            ih fname c (ln + 1) depth b hc hb, ← hx2]
          rfl
      | true =>
        rcases htoks : shlexSplit line with _ | toks
        · rw [expandGo.eq_def] at hx
          simp [hig, hsrc, htoks] at hx
        · rcases htgt : secondToken toks with _ | target
          · rw [expandGo.eq_def] at hx
            simp [hig, hsrc, htoks, htgt] at hx
          · rw [expandGo_cons_src _ _ _ _ _ _ hsrc htoks htgt] at hx
            rcases ha : specExpandFile fs fuel target c with _ | a
            · rw [ha] at hx
              exact absurd hx (by simp)
            · rw [ha] at hx
              rcases hb : expandGo (specExpandFile fs fuel) rest c with _ | b
              · rw [hb] at hx
                exact absurd hx (by simp)
              · rw [hb] at hx
                simp only [] at hx
                injection hx with hx
                rw [linesGo_src_step _ _ _ _ _ _ _ _ hsrc htoks htgt]
                simp only [hrec target c a depth hc ha]
                rw [ih fname c (ln + 1) depth b hc hb, ← hx]
                rfl

theorem specExpandFile_processFile (fs : FS) :
    ∀ (fuel : Nat) (path c : String) (out : List String) (depth : Nat),
      c ≠ "" → specExpandFile fs fuel path c = some out →
      processFile fs fuel path c (depth + 1) = .ok out c := by
  intro fuel
  induction fuel with
  | zero =>
    intro path c out depth hc hx
    have h0 : specExpandFile fs 0 path c = none := rfl
    rw [h0] at hx
    exact absurd hx (by simp)
  | succ f ih =>
    intro path c out depth hc hx
    rw [specExpandFile_succ] at hx
    rcases hread : fsRead fs (resolvePath c path) with _ | lines
    · rw [hread] at hx
      exact absurd hx (by simp)
    · rw [hread] at hx
      simp only [processFile_succ, hread]
      rw [if_neg (Nat.succ_ne_zero depth)]
      have hinner := innerCwd_ne_empty c (pyDirname path) hc
      have hgo := expandGo_linesGo fs f
        (fun t c2 out2 d2 hc2 hx2 => ih t c2 out2 d2 hc2 hx2)
        lines path _ 0 (depth + 1) out hinner hx
      rw [hgo]
      simp only [restoreCwd]
      by_cases hd : pyDirname path = ""
      · simp [hd]
      · simp [hd, hc]

theorem linesGo_cwd_aux (recur : String → String → PResult)
    (hrec : ∀ (t c : String) (out : List String) (c2 : String), c ≠ "" →
        recur t c = .ok out c2 → c2 = c) :
    ∀ (n : Nat) (lines : List String), lines.length ≤ n →
      ∀ (fname c : String) (ln : Nat) (out : List String) (c2 : String),
        c ≠ "" → linesGo recur lines fname c ln = .ok out c2 → c2 = c := by
  intro n
  induction n with
  | zero =>
    intro lines hlen fname c ln out c2 hc h
    have hnil : lines = [] := List.eq_nil_of_length_eq_zero (Nat.le_zero.mp hlen)
    subst hnil
    rw [linesGo_nil] at h
    injection h with h1 h2
    exact h2.symm
  | succ n ihn =>
    intro lines hlen fname c ln out c2 hc h
    rcases lines with _ | ⟨line, rest⟩
    · rw [linesGo_nil] at h
      injection h with h1 h2
      exact h2.symm
    · cases hig : shldignoreMatches line with
      | true =>
        rcases rest with _ | ⟨nxt, rest2⟩
        · rw [linesGo.eq_def] at h
          simp [hig] at h
        · cases hsn : sourceCmdMatches nxt with
          | false =>
            rw [linesGo_ignore_bad _ _ _ _ _ _ _ hig hsn] at h
            exact absurd h (by simp)
          | true =>
            rw [linesGo_ignore_step _ _ _ _ _ _ _ hig hsn] at h
            have hlen2 : rest2.length ≤ n := by
              simp [List.length_cons] at hlen
              omega
            rcases hres : linesGo recur rest2 fname c (ln + 2) with ⟨o, cc⟩ | ⟨e, oo⟩
            · rw [hres] at h
              simp only [prependOut] at h
              injection h with h1 h2
              exact h2 ▸ ihn rest2 hlen2 fname c (ln + 2) o cc hc hres
            · rw [hres] at h
              exact absurd h (by simp [prependOut])
      | false =>
        have hlen1 : rest.length ≤ n := by
          simp [List.length_cons] at hlen
          omega
        cases hsrc : sourceCmdMatches line with
        | false =>
          rw [linesGo_ord_step _ _ _ _ _ _ hig hsrc] at h
          rcases hres : linesGo recur rest fname c (ln + 1) with ⟨o, cc⟩ | ⟨e, oo⟩
          · rw [hres] at h
            simp only [prependOut] at h
            injection h with h1 h2
            exact h2 ▸ ihn rest hlen1 fname c (ln + 1) o cc hc hres
          · rw [hres] at h
            exact absurd h (by simp [prependOut])
        | true =>
          rcases htoks : shlexSplit line with _ | toks
          · rw [linesGo.eq_def] at h
            simp [hig, hsrc, htoks] at h
          · rcases htgt : secondToken toks with _ | target
            · rw [linesGo.eq_def] at h
              simp [hig, hsrc, htoks, htgt] at h
            · rw [linesGo_src_step _ _ _ _ _ _ _ _ hsrc htoks htgt] at h
              rcases hcall : recur target c with ⟨a, cwd2⟩ | ⟨e, oo⟩
              · rw [hcall] at h
                have hc2 : cwd2 = c := hrec target c a cwd2 hc hcall
                rw [hc2] at h
                have h3 : prependOut a (linesGo recur rest fname c (ln + 1)) = .ok out c2 := h
                rcases hres : linesGo recur rest fname c (ln + 1) with ⟨o, cc⟩ | ⟨e, oo⟩
                · rw [hres] at h3
                  simp only [prependOut] at h3
                  injection h3 with h1 h2
                  exact h2 ▸ ihn rest hlen1 fname c (ln + 1) o cc hc hres
                · rw [hres] at h3
                  exact absurd h3 (by simp [prependOut])
              · rw [hcall] at h
                have h3 : PResult.err e oo = .ok out c2 := h
                exact absurd h3 (by simp)

theorem linesGo_cwd (recur : String → String → PResult)
    (hrec : ∀ (t c : String) (out : List String) (c2 : String), c ≠ "" →
        recur t c = .ok out c2 → c2 = c)
    (lines : List String) (fname c : String) (ln : Nat) (out : List String) (c2 : String)
    (hc : c ≠ "") (h : linesGo recur lines fname c ln = .ok out c2) : c2 = c :=
  linesGo_cwd_aux recur hrec lines.length lines (Nat.le_refl _) fname c ln out c2 hc h

theorem restore_cwd_ok (fs : FS) (f : Nat) (path c : String) (dp : Nat)
    (ls : List String) (ln : Nat) (out : List String) (c2 : String)
    (hc : c ≠ "")
    (hih : ∀ (t c3 : String) (dp2 : Nat) (o : List String) (cc : String), c3 ≠ "" →
        processFile fs f t c3 dp2 = .ok o cc → cc = c3)
    (h : restoreCwd (pyDirname path) c
        (linesGo (fun t c3 => processFile fs f t c3 dp) ls path
          (if pyDirname path = "" then c else resolvePath c (pyDirname path)) ln)
      = .ok out c2) : c2 = c := by
  have hinner := innerCwd_ne_empty c (pyDirname path) hc
  rcases hres : linesGo (fun t c3 => processFile fs f t c3 dp) ls path
      (if pyDirname path = "" then c else resolvePath c (pyDirname path)) ln with ⟨o, cc⟩ | ⟨e, oo⟩
  · rw [hres] at h
    have hcc : cc = (if pyDirname path = "" then c else resolvePath c (pyDirname path)) :=
      linesGo_cwd _ (fun t c3 o2 cc2 hne hcall => hih t c3 dp o2 cc2 hne hcall)
        ls path _ ln o cc hinner hres
    simp only [restoreCwd] at h
    injection h with h1 h2
    by_cases hd : pyDirname path = ""
    · rw [if_pos hd] at h2
      rw [if_pos hd] at hcc
      rw [← h2]
      exact hcc
    · rw [if_neg hd, if_neg hc] at h2
      exact h2.symm
  · rw [hres] at h
    simp [restoreCwd] at h

theorem processFile_cwd (fs : FS) :
    ∀ (fuel : Nat) (path c : String) (depth : Nat) (out : List String) (c2 : String),
      c ≠ "" → processFile fs fuel path c depth = .ok out c2 → c2 = c := by
  intro fuel
  induction fuel with
  | zero =>
    intro path c depth out c2 hc h
    have h0 : processFile fs 0 path c depth = .err .outOfFuel [] := rfl
    rw [h0] at h
    exact absurd h (by simp)
  | succ f ih =>
    intro path c depth out c2 hc h
    rw [processFile_succ] at h
    rcases hread : fsRead fs (resolvePath c path) with _ | lines
    · rw [hread] at h
      simp only [] at h
      exact absurd h (by simp)
    · rw [hread] at h
      simp only [] at h
      by_cases hdep : depth = 0
      · rw [if_pos hdep] at h
        rcases hsh : extractShell (lines.headD "") with _ | shell
        · rw [hsh] at h
          simp only [] at h
          exact absurd h (by simp)
        · rw [hsh] at h
          simp only [] at h
          by_cases hmem : shell ∈ SUPPORTED_SHELLS
          · rw [if_pos hmem] at h
            subst hdep
            rcases hrest : restoreCwd (pyDirname path) c
                (linesGo (fun t c3 => processFile fs f t c3 (0 + 1)) lines.tail path
                  (if pyDirname path = "" then c else resolvePath c (pyDirname path)) 1)
              with ⟨o, cc⟩ | ⟨e, oo⟩
            · rw [hrest] at h
              simp only [prependOut] at h
              injection h with h1 h2
              rw [← h2]
              exact restore_cwd_ok fs f path c (0 + 1) lines.tail 1 o cc hc
                (fun t c3 dp2 o2 cc2 hne hcall => ih t c3 dp2 o2 cc2 hne hcall) hrest
            · rw [hrest] at h
              simp [prependOut] at h
          · rw [if_neg hmem] at h
            simp at h
      · rw [if_neg hdep] at h
        exact restore_cwd_ok fs f path c (depth + 1) lines 0 out c2 hc
          (fun t c3 dp2 o2 cc2 hne hcall => ih t c3 dp2 o2 cc2 hne hcall) h

theorem extractShell_token (p t w : List Char)
    (ht : t ≠ []) (htc : ∀ c ∈ t, (c == '/' || isPySpace c) = false)
    (hw : ∀ c ∈ w, isPySpace c = true) :
    extractShell (String.mk (p ++ '/' :: (t ++ w))) = some (String.mk t) := by
  unfold extractShell
  have h1 : (String.mk (p ++ '/' :: (t ++ w))).toList = p ++ '/' :: (t ++ w) := rfl
  rw [h1]
  have h2 : (p ++ '/' :: (t ++ w)).reverse = w.reverse ++ (t.reverse ++ '/' :: p.reverse) := by
    simp
  rw [h2]
  rw [dropWhile_append_all (fun c hc => hw c (List.mem_reverse.mp hc))]
  obtain ⟨c0, cs, hrev⟩ : ∃ c0 cs, t.reverse = c0 :: cs := by
    rcases htr : t.reverse with _ | ⟨c0, cs⟩
    · exact absurd (List.reverse_eq_nil_iff.mp htr) ht
    · exact ⟨c0, cs, rfl⟩
  have hc0 : isPySpace c0 = false := by
    have hmem : c0 ∈ t := by
      rw [← List.mem_reverse, hrev]
      simp
    rcases Bool.or_eq_false_iff.mp (htc c0 hmem) with ⟨_, hsp⟩
    exact hsp
  rw [hrev, List.cons_append, dropWhile_head_neg _ hc0, ← List.cons_append, ← hrev]
  rw [takeWhile_append_stop p.reverse
    (fun c hc => by
      rw [List.mem_reverse] at hc
      simp [htc c hc])
    (by decide)]
  have hne : t.reverse.isEmpty = false := by
    rw [hrev]
    rfl
  simp [hne]

theorem sourceCmd_iff_amended (line : String) :
    sourceCmdMatches line = true ↔ amendedInclusion line := by
  constructor
  · intro h
    unfold sourceCmdMatches at h
    rcases hr : line.toList.dropWhile isPySpace with _ | ⟨c, cs⟩
    · rw [hr] at h
      exact absurd h (by simp [srcHead])
    · rw [hr] at h
      have hsplit : line.toList = line.toList.takeWhile isPySpace ++ (c :: cs) := by
        rw [← hr, List.takeWhile_append_dropWhile]
      have hwall : ∀ x ∈ line.toList.takeWhile isPySpace, isPySpace x = true :=
        fun x hx => mem_takeWhile_p hx
      set w := line.toList.takeWhile isPySpace with hwdef
      unfold srcHead at h
      split at h
      · rename_i c2 rest heq
        refine ⟨w, [c2], rest, Or.inl ?_, hwall, by simp, ?_⟩
        · rw [hsplit, heq]
          have hsrc6 : "source".toList = ['s', 'o', 'u', 'r', 'c', 'e'] := rfl
          rw [hsrc6]
          simp
        · intro x hx
          rw [List.mem_singleton.mp hx]
          exact h
      · rename_i c2 rest heq
        refine ⟨w, [c2], rest, Or.inr ?_, hwall, by simp, ?_⟩
        · rw [hsplit, heq]
          simp
        · intro x hx
          rw [List.mem_singleton.mp hx]
          exact h
      · exact absurd h (by simp)
  · rintro ⟨w, u, rest, hdec, hw, hu0, hu⟩
    obtain ⟨uc, ut, hu2⟩ : ∃ uc ut, u = uc :: ut := by
      rcases u with _ | ⟨uc, ut⟩
      · exact absurd rfl hu0
      · exact ⟨uc, ut, rfl⟩
    have huc : isPySpace uc = true := hu uc (by simp [hu2])
    unfold sourceCmdMatches
    rcases hdec with hdec | hdec
    · rw [hdec]
      rw [List.append_assoc, List.append_assoc]
      rw [dropWhile_append_all hw]
      have hX : "source".toList ++ (u ++ rest)
          = 's' :: 'o' :: 'u' :: 'r' :: 'c' :: 'e' :: (u ++ rest) := rfl
      rw [hX]
      rw [show List.dropWhile isPySpace ('s' :: 'o' :: 'u' :: 'r' :: 'c' :: 'e' :: (u ++ rest))
            = 's' :: 'o' :: 'u' :: 'r' :: 'c' :: 'e' :: (u ++ rest) from
          dropWhile_head_neg _ (by decide)]
      rw [hu2, List.cons_append]
      simp [srcHead, huc]
    · rw [hdec]
      rw [dropWhile_append_all hw]
      rw [show List.dropWhile isPySpace ('.' :: (u ++ rest)) = '.' :: (u ++ rest) from
          dropWhile_head_neg _ (by decide)]
      rw [hu2, List.cons_append]
      simp [srcHead, huc]

/-! Claim theorems. -/

/-- C9: the line consisting of the keyword source followed only by
whitespace is accepted as an inclusion statement by the pattern, shlex
splits it into the single token source, and extracting the target via the
subscript [1] raises an uncaught IndexError: the run on the fixture dies
with the index-error outcome, which carries none of the documented exit
codes (codes 4 through 8 are produced only by the argument and output
pre-flight layer, never by process_file). -/
theorem claim9_index_error :
    sourceCmdMatches "source \n" = true ∧
    shlexSplit "source \n" = some ["source"] ∧
    processFile fsNoArg 2 "/t.sh" "/r" 0
      = .err (.indexErrNoSourceArg "/t.sh" "source \n") ["#!/bin/sh\n"] ∧
    exitCodeOf (.indexErrNoSourceArg "/t.sh" "source \n") = none :=
  ⟨by decide, by decide, by decide, rfl⟩

/-- C10: a first line holding no character that is neither a path
separator nor whitespace makes the interpreter regex search fail, so
match.group(1) raises an uncaught AttributeError: on the fixture whose
first line is whitespace only, the run dies with the attribute-error
outcome and no output, not with the unsupported-shell exit. -/
theorem claim10_attribute_error :
    extractShell " \n" = none ∧
    processFile fsBlank 1 "/w.sh" "/r" 0 = .err (.attrErrNoShellToken " \n") [] ∧
    exitCodeOf (.attrErrNoShellToken " \n") = none :=
  ⟨by decide, by decide, rfl⟩

/-- C8: an invocation of process_file that returns successfully leaves
the working directory exactly as it was when the invocation began, at
every depth, the conditional pushd/popd discipline notwithstanding. -/
theorem claim8_cwd_restored (fs : FS) (fuel : Nat) (path cwd : String) (depth : Nat)
    (out : List String) (endCwd : String)
    (hcwd : cwd ≠ "")
    (h : processFile fs fuel path cwd depth = .ok out endCwd) : endCwd = cwd :=
  processFile_cwd fs fuel path cwd depth out endCwd hcwd h

/-- Witness for C8: a doubly nested run that switches directory twice
and still returns with the original directory. -/
theorem claim8_witness :
    processFile fsNested 3 "r/top.sh" "/T" 0
      = .ok ["#!/bin/bash\n", "echo t\n", "echo i1\n", "echo i2\n"] "/T" ∧
    ("/T" : String) = "/T" :=
  ⟨by decide,
   claim8_cwd_restored fsNested 3 "r/top.sh" "/T" 0
     ["#!/bin/bash\n", "echo t\n", "echo i1\n", "echo i2\n"] "/T" (by decide) (by decide)⟩

/-- C5: at depth 0 the validator extracts the trailing token of the first
line (the run of characters holding neither separator nor whitespace that
precedes only trailing whitespace; the last conjunct shows this is the
path component after the final separator, trimmed of trailing
whitespace); when the token lies outside the allow-list the run aborts
with the unsupported-shell exit code 2 having produced no output, and
when it lies inside the first line is written unchanged as the first
line of the output. -/
theorem claim5_shell_validator (fs : FS) (fuel : Nat) (path cwd : String)
    (lines : List String) (shell : String)
    (hread : fsRead fs (resolvePath cwd path) = some lines)
    (hsh : extractShell (lines.headD "") = some shell) :
    (shell ∉ SUPPORTED_SHELLS →
        processFile fs (fuel + 1) path cwd 0 = .err (.unsupportedShell shell) [] ∧
        exitCodeOf (.unsupportedShell shell) = some 2) ∧
    (shell ∈ SUPPORTED_SHELLS →
        ∃ r, processFile fs (fuel + 1) path cwd 0 = prependOut [lines.headD ""] r) ∧
    (∀ (p t w : List Char), t ≠ [] → (∀ c ∈ t, (c == '/' || isPySpace c) = false) →
        (∀ c ∈ w, isPySpace c = true) →
        extractShell (String.mk (p ++ '/' :: (t ++ w))) = some (String.mk t)) := by
  refine ⟨?_, ?_, fun p t w ht htc hw => extractShell_token p t w ht htc hw⟩
  · intro hmem
    refine ⟨?_, rfl⟩
    rw [processFile_succ, hread]
    simp only []
    rw [if_pos trivial, hsh]
    simp only []
    rw [if_neg hmem]
  · intro hmem
    rw [processFile_succ, hread]
    simp only []
    rw [if_pos trivial, hsh]
    simp only []
    rw [if_pos hmem]
    exact ⟨_, rfl⟩

/-- Witness for C5: a zsh interpreter line is rejected with exit code 2
and empty output. -/
theorem claim5_witness :
    extractShell "#!/bin/zsh\n" = some "zsh" ∧
    processFile fsZsh 1 "/z.sh" "/r" 0 = .err (.unsupportedShell "zsh") [] ∧
    exitCodeOf (.unsupportedShell "zsh") = some 2 :=
  ⟨by decide,
   (claim5_shell_validator fsZsh 0 "/z.sh" "/r" ["#!/bin/zsh\n"] "zsh"
     (by decide) (by decide)).1 (by decide)⟩

/-- C1: for a top-level script whose first line extracts a supported
interpreter name and whose body expands fully under the manual
depth-first left-to-right paste semantics (every file in the recursion
tree opens, no ignore directive occurs, every inclusion line carries a
target), the lines process_file writes are exactly the interpreter line
followed by that manual expansion of the remaining lines, in order. -/
theorem claim1_depth_first_expansion (fs : FS) (fuel : Nat) (path cwd : String)
    (l0 : String) (rest : List String) (shell : String) (body : List String)
    (hread : fsRead fs (resolvePath cwd path) = some (l0 :: rest))
    (hsh : extractShell l0 = some shell)
    (hsup : shell ∈ SUPPORTED_SHELLS)
    (hcwd : cwd ≠ "")
    (hexp : expandGo (specExpandFile fs fuel) rest
        (if pyDirname path = "" then cwd else resolvePath cwd (pyDirname path))
      = some body) :
    processFile fs (fuel + 1) path cwd 0 = .ok (l0 :: body) cwd := by
  rw [processFile_succ, hread]
  simp only []
  rw [if_pos trivial]
  rw [show (l0 :: rest).headD "" = l0 from rfl, hsh]
  simp only []
  rw [if_pos hsup, show (l0 :: rest).tail = rest from rfl]
  have hinner := innerCwd_ne_empty cwd (pyDirname path) hcwd
  have hgo := expandGo_linesGo fs fuel
    (fun t c out d hc hx => specExpandFile_processFile fs fuel t c out d hc hx)
    rest path _ 1 0 body hinner hexp
  rw [hgo]
  simp only [restoreCwd]
  by_cases hd : pyDirname path = ""
  · simp [hd, prependOut]
  · simp [hd, hcwd, prependOut]

/-- Witness for C1 on the fixture matching the first concrete scenario
of the spec: one inclusion of a one-line library. -/
theorem claim1_witness :
    expandGo (specExpandFile fsPaste 1) ["echo a\n", ". lib.sh\n", "echo b\n"]
        (if pyDirname "/a/top.sh" = "" then "/r"
         else resolvePath "/r" (pyDirname "/a/top.sh"))
      = some ["echo a\n", "echo c\n", "echo b\n"] ∧
    processFile fsPaste 2 "/a/top.sh" "/r" 0
      = .ok ["#!/bin/bash\n", "echo a\n", "echo c\n", "echo b\n"] "/r" :=
  ⟨by decide,
   claim1_depth_first_expansion fsPaste 1 "/a/top.sh" "/r" "#!/bin/bash\n"
     ["echo a\n", ". lib.sh\n", "echo b\n"] "bash" ["echo a\n", "echo c\n", "echo b\n"]
     (by decide) (by decide) (by decide) (by decide) (by decide)⟩

/-- C7: a script whose body holds no inclusion statement and no ignore
directive (and whose first line carries a supported interpreter) is
reproduced in the output byte for byte: the written lines are exactly
the lines of the input file. -/
theorem claim7_passthrough (fs : FS) (fuel : Nat) (path cwd : String)
    (l0 shell : String) (rest : List String)
    (hread : fsRead fs (resolvePath cwd path) = some (l0 :: rest))
    (hsh : extractShell l0 = some shell)
    (hsup : shell ∈ SUPPORTED_SHELLS)
    (hcwd : cwd ≠ "")
    (hord : ∀ l ∈ rest, shldignoreMatches l = false ∧ sourceCmdMatches l = false) :
    processFile fs (fuel + 1) path cwd 0 = .ok (l0 :: rest) cwd := by
  rw [processFile_succ, hread]
  simp only []
  rw [if_pos trivial]
  rw [show (l0 :: rest).headD "" = l0 from rfl, hsh]
  simp only []
  rw [if_pos hsup, show (l0 :: rest).tail = rest from rfl]
  rw [linesGo_all_ord _ rest path _ 1 hord]
  simp only [restoreCwd]
  by_cases hd : pyDirname path = ""
  · simp [hd, prependOut]
  · simp [hd, hcwd, prependOut]

/-- Witness for C7: a two-line script with no inclusion passes through
unchanged. -/
theorem claim7_witness :
    fsRead fsSimple (resolvePath "/r" "/simple.sh") = some ["#!/bin/sh\n", "echo hi\n"] ∧
    processFile fsSimple 1 "/simple.sh" "/r" 0 = .ok ["#!/bin/sh\n", "echo hi\n"] "/r" :=
  ⟨by decide,
   claim7_passthrough fsSimple 0 "/simple.sh" "/r" "#!/bin/sh\n" "sh" ["echo hi\n"]
     (by decide) (by decide) (by decide) (by decide) (by decide)⟩

/-- C2 counterexample: on a script whose second line is the ignore
directive and whose third is an inclusion, the output is the interpreter
line followed by the unexpanded inclusion line only; the directive line
is not written, so the output differs from the claimed
directive-then-inclusion sequence. -/
theorem claim2_cex :
    processFile fsIgnore 1 "/s.sh" "/r" 0 = .ok ["#!/bin/bash\n", ". lib.sh\n"] "/r" ∧
    (["#!/bin/bash\n", ". lib.sh\n"] : List String)
      ≠ ["#!/bin/bash\n", "#shldignore\n", ". lib.sh\n"] :=
  ⟨by decide, by decide⟩

/-- C2 amended: when an ignore-directive line is immediately followed by
an inclusion line, process_file writes the inclusion line unchanged (it
is not expanded, whether or not its target even exists) and does not
write the directive line itself; scanning then continues after the
pair. -/
theorem claim2_directive_line_dropped (fs : FS) (fuel : Nat) (path cwd : String)
    (l0 shell : String) (pre : List String) (dline sline : String) (post : List String)
    (hread : fsRead fs (resolvePath cwd path)
      = some (l0 :: (pre ++ dline :: sline :: post)))
    (hsh : extractShell l0 = some shell)
    (hsup : shell ∈ SUPPORTED_SHELLS)
    (hcwd : cwd ≠ "")
    (hpre : ∀ l ∈ pre, shldignoreMatches l = false ∧ sourceCmdMatches l = false)
    (hpost : ∀ l ∈ post, shldignoreMatches l = false ∧ sourceCmdMatches l = false)
    (hd : shldignoreMatches dline = true)
    (hs : sourceCmdMatches sline = true) :
    processFile fs (fuel + 1) path cwd 0 = .ok (l0 :: (pre ++ sline :: post)) cwd := by
  rw [processFile_succ, hread]
  simp only []
  rw [if_pos trivial]
  rw [show (l0 :: (pre ++ dline :: sline :: post)).headD "" = l0 from rfl, hsh]
  simp only []
  rw [if_pos hsup,
    show (l0 :: (pre ++ dline :: sline :: post)).tail = pre ++ dline :: sline :: post from rfl]
  rw [linesGo_ord_append _ pre (dline :: sline :: post) path _ 1 hpre]
  rw [linesGo_ignore_step _ _ _ _ _ _ _ hd hs]
  rw [linesGo_all_ord _ post path _ _ hpost]
  simp only [prependOut, restoreCwd]
  by_cases hdd : pyDirname path = ""
  · simp [hdd]
  · simp [hdd, hcwd]

/-- Witness for C2 (amended) on the fixture: the directive and inclusion
pair collapses to the inclusion line alone. -/
theorem claim2_witness :
    shldignoreMatches "#shldignore\n" = true ∧
    processFile fsIgnore 1 "/s.sh" "/r" 0 = .ok ["#!/bin/bash\n", ". lib.sh\n"] "/r" :=
  ⟨by decide,
   claim2_directive_line_dropped fsIgnore 0 "/s.sh" "/r" "#!/bin/bash\n" "bash" []
     "#shldignore\n" ". lib.sh\n" [] (by decide) (by decide) (by decide) (by decide)
     (by simp) (by simp) (by decide) (by decide)⟩

/-- C4 counterexample: with the ignore directive on 1-based physical
line 2 of the script and a non-inclusion line after it, the run aborts
with the improper-use exit carrying line number 1, not the 1-based line
number 2 of the directive. -/
theorem claim4_cex :
    processFile fsMisuse 1 "/s.sh" "/r" 0
      = .err (.improperShldignore "/s.sh" 1) ["#!/bin/sh\n"] ∧
    (PErr.improperShldignore "/s.sh" 1) ≠ .improperShldignore "/s.sh" 2 :=
  ⟨by decide, by decide⟩

/-- C4 amended: when an ignore-directive line is not immediately followed
by an inclusion statement, the whole run aborts with the dedicated
improper-use exit code 3, and the report names the file process_file
opened and the zero-based line number of the directive — one less than
its 1-based physical line number (here the directive sits at physical
line 2 + length of the ordinary prefix, and the reported number is
1 + length of that prefix). -/
theorem claim4_zero_based_line_number (fs : FS) (fuel : Nat) (path cwd : String)
    (l0 shell : String) (pre : List String) (dline bad : String) (post : List String)
    (hread : fsRead fs (resolvePath cwd path)
      = some (l0 :: (pre ++ dline :: bad :: post)))
    (hsh : extractShell l0 = some shell)
    (hsup : shell ∈ SUPPORTED_SHELLS)
    (hpre : ∀ l ∈ pre, shldignoreMatches l = false ∧ sourceCmdMatches l = false)
    (hd : shldignoreMatches dline = true)
    (hb : sourceCmdMatches bad = false) :
    processFile fs (fuel + 1) path cwd 0
      = .err (.improperShldignore path (1 + pre.length)) (l0 :: pre) ∧
    exitCodeOf (.improperShldignore path (1 + pre.length)) = some 3 := by
  refine ⟨?_, rfl⟩
  rw [processFile_succ, hread]
  simp only []
  rw [if_pos trivial]
  rw [show (l0 :: (pre ++ dline :: bad :: post)).headD "" = l0 from rfl, hsh]
  simp only []
  rw [if_pos hsup,
    show (l0 :: (pre ++ dline :: bad :: post)).tail = pre ++ dline :: bad :: post from rfl]
  rw [linesGo_ord_append _ pre (dline :: bad :: post) path _ 1 hpre]
  rw [linesGo_ignore_bad _ _ _ _ _ _ _ hd hb]
  simp [prependOut, restoreCwd]

/-- Witness for C4 (amended) on the fixture: directive at 1-based line 2,
reported number 1, exit code 3. -/
theorem claim4_witness :
    shldignoreMatches "#shldignore\n" = true ∧
    processFile fsMisuse 1 "/s.sh" "/r" 0
      = .err (.improperShldignore "/s.sh" 1) ["#!/bin/sh\n"] ∧
    exitCodeOf (.improperShldignore "/s.sh" 1) = some 3 :=
  ⟨by decide,
   claim4_zero_based_line_number fsMisuse 0 "/s.sh" "/r" "#!/bin/sh\n" "sh" []
     "#shldignore\n" "echo x\n" [] (by decide) (by decide) (by decide) (by simp)
     (by decide) (by decide)⟩

/-- C6 counterexample: the line holding the keyword source followed only
by whitespace is classified as an inclusion statement by the pattern of
the code, yet it carries no non-whitespace character naming a file, so
the classification claimed by the spec rejects it. -/
theorem claim6_cex :
    sourceCmdMatches "source  " = true ∧ claimedInclusion "source  " = false :=
  ⟨by decide, by decide⟩

/-- C6 amended: a line is classified as an inclusion statement exactly
when, after optional leading whitespace, it carries the keyword source or
the keyword dot followed by at least one whitespace character; no
character is required to follow that whitespace (the trailing dot run of
the pattern matches the empty string). -/
theorem claim6_keyword_then_whitespace (line : String) :
    sourceCmdMatches line = true ↔ amendedInclusion line :=
  sourceCmd_iff_amended line

/-- C3: an inclusion statement with a relative target found in a file
that was opened at resolvePath cwd path, with nonempty dirname, is opened
at the key resolvePath D target where D = resolvePath cwd (pyDirname
path) is the directory of the containing file.  The file system, the
working directory of the caller and the recursion depth are arbitrary, so
entries stored under any other directory (the top-level script directory,
the invoking directory) are never consulted: when the key under D is
absent the run fails open-failed even if same-named files exist
elsewhere, and when it is present its content is what gets inlined. -/
theorem claim3_relative_resolution (fs : FS) (fuel : Nat) (path cwd : String) (depth : Nat)
    (sline : String) (rest : List String) (toks : List String) (target : String)
    (hcwd : cwd ≠ "")
    (hdir : pyDirname path ≠ "")
    (hread : fsRead fs (resolvePath cwd path) = some (sline :: rest))
    (hsrc : sourceCmdMatches sline = true)
    (htoks : shlexSplit sline = some toks)
    (htgt : secondToken toks = some target)
    (hrel : isAbsolute target = false) :
    (fsRead fs (resolvePath (resolvePath cwd (pyDirname path)) target) = none →
        processFile fs (fuel + 2) path cwd (depth + 1) = .err (.openFailed target) []) ∧
    (∀ tlines,
        fsRead fs (resolvePath (resolvePath cwd (pyDirname path)) target) = some tlines →
        rest = [] → pyDirname target = "" →
        (∀ l ∈ tlines, shldignoreMatches l = false ∧ sourceCmdMatches l = false) →
        processFile fs (fuel + 2) path cwd (depth + 1) = .ok tlines cwd) := by
  constructor
  · intro habs
    rw [processFile_succ, hread]
    simp only []
    rw [if_neg (Nat.succ_ne_zero depth), if_neg hdir]
    rw [linesGo_src_step _ _ _ _ _ _ _ _ hsrc htoks htgt]
    rw [processFile_succ, habs]
    simp only []
    rfl
  · intro tlines hpres hrest htdir hord
    subst hrest
    rw [processFile_succ, hread]
    simp only []
    rw [if_neg (Nat.succ_ne_zero depth), if_neg hdir]
    rw [linesGo_src_step _ _ _ _ _ _ _ _ hsrc htoks htgt]
    rw [processFile_succ, hpres]
    simp only []
    rw [if_neg (Nat.succ_ne_zero (depth + 1)), if_pos htdir]
    rw [linesGo_all_ord _ tlines target _ _ hord]
    simp only [restoreCwd]
    rw [if_pos htdir]
    rw [linesGo_nil]
    simp only [prependOut, restoreCwd]
    rw [if_neg hdir, if_neg hcwd]
    simp

/-- Witness for C3 on the fixture: the relative target b.sh of the file
/d/a.sh resolves to /d/b.sh and inlines the real content, leaving the
decoy /r/b.sh stored under the invoking directory untouched. -/
theorem claim3_witness :
    fsRead fsRel (resolvePath (resolvePath "/r" (pyDirname "/d/a.sh")) "b.sh")
      = some ["echo real\n"] ∧
    processFile fsRel 2 "/d/a.sh" "/r" 1 = .ok ["echo real\n"] "/r" :=
  ⟨by decide,
   (claim3_relative_resolution fsRel 0 "/d/a.sh" "/r" 0 ". b.sh\n" [] [".", "b.sh"] "b.sh"
     (by decide) (by decide) (by decide) (by decide) (by decide) (by decide)
     (by decide)).2 ["echo real\n"] (by decide) rfl (by decide) (by decide)⟩
